import Mathlib

/-!
Verification development for the palapa data-preparation scripts.

The definitions below are shallow embeddings of the Python source:

* `clean_text` embeds `clean_text` of `dataset-wisata/merge_datasets.py`
  (lines 115-127), working on `List Char` with the ASCII fragment of the
  Python regex character classes `\s` and `\w`.
* the merge/dedup stage, the embedding generators, the bulk loaders, the
  index builders and the search routine of the `scripts/import-data*.py`
  variants follow further down.

External collaborators (the embedding service, the document store, the
faiss library) are modelled as oracle function parameters, matching the
spec's declaration that they are interfaces only.
-/

namespace Palapa

/-- ASCII fragment of the Python regex class `\s` (whitespace). -/
def isSpaceCh (c : Char) : Bool :=
  c = ' ' || c = '\t' || c = '\n' || c = '\r' || c = '\x0b' || c = '\x0c'

/-- ASCII fragment of the Python regex class `\w`: alphanumeric or underscore. -/
def isWordCh (c : Char) : Bool :=
  c.isAlphanum || c = '_'

/-- The punctuation kept by `clean_text`: the set containing dot, comma, semicolon, colon, parentheses, hyphen and slash in the
source regex on line 124 of `merge_datasets.py`. -/
def isPunctKeep (c : Char) : Bool :=
  c = '.' || c = ',' || c = ';' || c = ':' || c = '(' || c = ')' || c = '-' || c = '/'

/-- A character survives the removal step on line 124 of `merge_datasets.py`
exactly when it matches word, whitespace or the kept punctuation class. -/
def keepChar (c : Char) : Bool :=
  isWordCh c || isSpaceCh c || isPunctKeep c

/-- Modelled from the spec's words (section 4.1 and claim C3), for comparison
with the source predicate `keepChar`: a character is allowed when it is
alphanumeric, whitespace, or in the punctuation set. Note the spec's words,
unlike the source's `\w`, do not mention the underscore. -/
def specAllowedChar (c : Char) : Bool :=
  c.isAlphanum || isSpaceCh c || isPunctKeep c

/-- Step 1 of `clean_text`: `text.replace('\n',' ').replace('\r',' ').replace('\t',' ')`. -/
def replCtl (c : Char) : Char :=
  if c = '\n' || c = '\r' || c = '\t' then ' ' else c

/-- Step 2 of `clean_text`, `re.sub(r'\s+', ' ', text)`: replace every maximal
run of whitespace by a single space.  The boolean argument records whether the
previous character belonged to a whitespace run. -/
def collapseAux : Bool → List Char → List Char
  | _, [] => []
  | prevSpace, c :: cs =>
    if isSpaceCh c then
      match prevSpace with
      | true => collapseAux true cs
      | false => ' ' :: collapseAux true cs
    else c :: collapseAux false cs

def collapseWS (l : List Char) : List Char := collapseAux false l

/-- Python `str.strip()`: drop leading and trailing whitespace. -/
def stripWS (l : List Char) : List Char :=
  ((l.dropWhile isSpaceCh).reverse.dropWhile isSpaceCh).reverse

/-- Shallow embedding of `clean_text` (merge_datasets.py lines 115-127) on a
present (non-NaN) string: replace newline/carriage-return/tab by spaces,
collapse whitespace runs, remove the characters outside the kept classes,
then strip. -/
def clean_text (l : List Char) : List Char :=
  stripWS ((collapseWS (l.map replCtl)).filter keepChar)

/-! Lemmas about the whitespace-collapsing pass. -/

/-- No two adjacent characters of the list are both whitespace. -/
def NoTwoSp (l : List Char) : Prop :=
  l.Chain' fun a b => ¬(isSpaceCh a = true ∧ isSpaceCh b = true)

theorem collapseAux_nil (b : Bool) : collapseAux b [] = [] := rfl

theorem collapseAux_cons_sp_true {c : Char} {cs : List Char}
    (h : isSpaceCh c = true) : collapseAux true (c :: cs) = collapseAux true cs := by
  simp [collapseAux, h]

theorem collapseAux_cons_sp_false {c : Char} {cs : List Char}
    (h : isSpaceCh c = true) :
    collapseAux false (c :: cs) = ' ' :: collapseAux true cs := by
  simp [collapseAux, h]

theorem collapseAux_cons_nonsp (b : Bool) {c : Char} {cs : List Char}
    (h : isSpaceCh c = false) :
    collapseAux b (c :: cs) = c :: collapseAux false cs := by
  cases b <;> simp [collapseAux, h]

theorem mem_collapseAux {c : Char} :
    ∀ (b : Bool) (l : List Char), c ∈ collapseAux b l →
      c = ' ' ∨ (c ∈ l ∧ isSpaceCh c = false) := by
  intro b l
  induction l generalizing b with
  | nil => simp [collapseAux_nil]
  | cons a as ih =>
    intro hc
    rcases ha : isSpaceCh a with _ | _
    · rw [collapseAux_cons_nonsp b ha, List.mem_cons] at hc
      rcases hc with rfl | hc
      · exact Or.inr ⟨List.mem_cons_self _ _, ha⟩
      · rcases ih false hc with h1 | h2
        · exact Or.inl h1
        · exact Or.inr ⟨List.mem_cons_of_mem _ h2.1, h2.2⟩
    · have htail : c ∈ collapseAux true as → _ := ih true
      cases b with
      | true =>
        rw [collapseAux_cons_sp_true ha] at hc
        rcases htail hc with h1 | h2
        · exact Or.inl h1
        · exact Or.inr ⟨List.mem_cons_of_mem _ h2.1, h2.2⟩
      | false =>
        rw [collapseAux_cons_sp_false ha, List.mem_cons] at hc
        rcases hc with rfl | hc
        · exact Or.inl rfl
        · rcases htail hc with h1 | h2
          · exact Or.inl h1
          · exact Or.inr ⟨List.mem_cons_of_mem _ h2.1, h2.2⟩

theorem collapseAux_onlyPlain (b : Bool) (l : List Char) :
    ∀ c ∈ collapseAux b l, isSpaceCh c = true → c = ' ' := by
  intro c hc hsp
  rcases mem_collapseAux b l hc with h | h
  · exact h
  · rw [h.2] at hsp; cases hsp

theorem collapseAux_true_head (l : List Char) :
    ∀ c ∈ (collapseAux true l).head?, isSpaceCh c = false := by
  induction l with
  | nil => simp [collapseAux_nil]
  | cons a as ih =>
    rcases ha : isSpaceCh a with _ | _
    · rw [collapseAux_cons_nonsp true ha]
      intro c hc
      rw [List.head?_cons, Option.mem_def, Option.some.injEq] at hc
      rw [← hc]
      exact ha
    · rw [collapseAux_cons_sp_true ha]
      exact ih

theorem collapseAux_noTwo (l : List Char) :
    NoTwoSp (collapseAux false l) ∧ NoTwoSp (collapseAux true l) := by
  induction l with
  | nil => exact ⟨List.chain'_nil, List.chain'_nil⟩
  | cons a as ih =>
    rcases ha : isSpaceCh a with _ | _
    · have hcons : NoTwoSp (a :: collapseAux false as) := by
        rw [NoTwoSp, List.chain'_cons']
        exact ⟨fun y _ => by simp [ha], ih.1⟩
      rw [collapseAux_cons_nonsp false ha, collapseAux_cons_nonsp true ha]
      exact ⟨hcons, hcons⟩
    · rw [collapseAux_cons_sp_false ha, collapseAux_cons_sp_true ha]
      refine ⟨?_, ih.2⟩
      rw [NoTwoSp, List.chain'_cons']
      refine ⟨?_, ih.2⟩
      intro y hy
      have := collapseAux_true_head as y hy
      simp [this]

theorem collapseAux_fixed :
    ∀ l : List Char, (∀ c ∈ l, isSpaceCh c = true → c = ' ') → NoTwoSp l →
      collapseAux false l = l ∧
        ((∀ c ∈ l.head?, isSpaceCh c = false) → collapseAux true l = l) := by
  intro l
  induction l with
  | nil => exact fun _ _ => ⟨rfl, fun _ => rfl⟩
  | cons a as ih =>
    intro hplain hnt
    have hplain' : ∀ c ∈ as, isSpaceCh c = true → c = ' ' :=
      fun c hc => hplain c (List.mem_cons_of_mem _ hc)
    have hnt' : NoTwoSp as := hnt.tail
    rcases ha : isSpaceCh a with _ | _
    · have hfalse : collapseAux false as = as := (ih hplain' hnt').1
      rw [collapseAux_cons_nonsp false ha, collapseAux_cons_nonsp true ha, hfalse]
      exact ⟨rfl, fun _ => rfl⟩
    · have haeq : a = ' ' := hplain a (List.mem_cons_self _ _) ha
      have hhead : ∀ c ∈ as.head?, isSpaceCh c = false := by
        intro c hc
        rw [NoTwoSp, List.chain'_cons'] at hnt
        have := hnt.1 c hc
        rcases h : isSpaceCh c with _ | _
        · rfl
        · exact absurd ⟨ha, h⟩ this
      have htrue : collapseAux true as = as := (ih hplain' hnt').2 hhead
      refine ⟨?_, ?_⟩
      · rw [collapseAux_cons_sp_false ha, htrue, haeq]
      · intro hstart
        have := hstart a (by simp)
        rw [ha] at this; cases this

theorem noTwoSp_dropWhile (p : Char → Bool) :
    ∀ l : List Char, NoTwoSp l → NoTwoSp (l.dropWhile p) := by
  intro l
  induction l with
  | nil => intro h; simpa [List.dropWhile]
  | cons a as ih =>
    intro h
    by_cases hp : p a = true
    · simpa [List.dropWhile, hp] using ih h.tail
    · simpa [List.dropWhile, hp] using h

theorem noTwoSp_reverse {l : List Char} (h : NoTwoSp l) : NoTwoSp l.reverse := by
  rw [NoTwoSp, List.chain'_reverse]
  exact h.imp fun a b hab => fun hc => hab ⟨hc.2, hc.1⟩

theorem noTwoSp_stripWS {l : List Char} (h : NoTwoSp l) : NoTwoSp (stripWS l) :=
  noTwoSp_reverse (noTwoSp_dropWhile _ _ (noTwoSp_reverse (noTwoSp_dropWhile _ _ h)))

theorem mem_stripWS {c : Char} {l : List Char} (h : c ∈ stripWS l) : c ∈ l := by
  rw [stripWS] at h
  rw [List.mem_reverse] at h
  have h1 := ((List.dropWhile_suffix isSpaceCh).sublist).mem h
  rw [List.mem_reverse] at h1
  exact ((List.dropWhile_suffix isSpaceCh).sublist).mem h1

theorem stripWS_eq_rdropWhile (l : List Char) :
    stripWS l = List.rdropWhile isSpaceCh (l.dropWhile isSpaceCh) := rfl

theorem stripWS_idempotent (l : List Char) : stripWS (stripWS l) = stripWS l := by
  rw [stripWS_eq_rdropWhile, stripWS_eq_rdropWhile]
  have hdw : List.dropWhile isSpaceCh
      (List.rdropWhile isSpaceCh (l.dropWhile isSpaceCh)) =
      List.rdropWhile isSpaceCh (l.dropWhile isSpaceCh) := by
    rw [List.dropWhile_eq_self_iff]
    intro hl
    have hpre := List.rdropWhile_prefix isSpaceCh (l.dropWhile isSpaceCh)
    have hlen : 0 < (l.dropWhile isSpaceCh).length :=
      lt_of_lt_of_le hl hpre.length_le
    have hget := hpre.getElem (n := 0) hl
    simp only [List.get_eq_getElem]
    rw [hget]
    have := List.dropWhile_get_zero_not isSpaceCh l hlen
    simpa using this
  rw [hdw, List.rdropWhile_idempotent]

theorem map_replCtl_id {l : List Char}
    (h : ∀ c ∈ l, isSpaceCh c = true → c = ' ') : l.map replCtl = l := by
  have : ∀ c ∈ l, replCtl c = c := by
    intro c hc
    rw [replCtl]
    split
    · rename_i hmem
      simp only [Bool.or_eq_true, decide_eq_true_eq] at hmem
      rcases hmem with (h1 | h1) | h1 <;>
        · exact absurd (h c hc (by subst h1; decide)) (by subst h1; decide)
    · rfl
  calc l.map replCtl = l.map id := List.map_congr_left this
  _ = l := List.map_id l

/--
Claim C2 counterexample: `clean_text` is not idempotent.  On the input
`"a # b"` the removal of the disallowed character produces two adjacent
spaces, after the whitespace-collapsing pass already ran, so a second
application of `clean_text` changes the result again.
-/
theorem C2_counterexample :
    clean_text (clean_text "a # b".toList) ≠ clean_text "a # b".toList ∧
      clean_text "a # b".toList = "a  b".toList ∧
      clean_text (clean_text "a # b".toList) = "a b".toList := by
  refine ⟨?_, by decide, by decide⟩
  decide

/--
Claim C2 (amended): the text cleaner is idempotent on every input all of
whose characters are allowed (match word, whitespace or kept punctuation);
the unrestricted statement fails because removing a disallowed character
can create a new whitespace run (see the counterexample).
-/
theorem C2_clean_idempotent_on_allowed (l : List Char)
    (hall : ∀ c ∈ l, keepChar c = true) :
    clean_text (clean_text l) = clean_text l := by
  have hwPlain : ∀ c ∈ collapseWS (l.map replCtl), isSpaceCh c = true → c = ' ' :=
    collapseAux_onlyPlain false (l.map replCtl)
  have hwAllowed : ∀ c ∈ collapseWS (l.map replCtl), keepChar c = true := by
    intro c hc
    rcases mem_collapseAux false (l.map replCtl) hc with h | h
    · subst h; decide
    · rcases List.mem_map.1 h.1 with ⟨a, ha, rfl⟩
      rw [replCtl]
      split
      · decide
      · exact hall a ha
  have hfilter : (collapseWS (l.map replCtl)).filter keepChar =
      collapseWS (l.map replCtl) := List.filter_eq_self.mpr hwAllowed
  have hclean : clean_text l = stripWS (collapseWS (l.map replCtl)) := by
    rw [clean_text, hfilter]
  have hyPlain : ∀ c ∈ clean_text l, isSpaceCh c = true → c = ' ' := by
    rw [hclean]; exact fun c hc => hwPlain c (mem_stripWS hc)
  have hyAllowed : ∀ c ∈ clean_text l, keepChar c = true := by
    rw [hclean]; exact fun c hc => hwAllowed c (mem_stripWS hc)
  have hyNoTwo : NoTwoSp (clean_text l) := by
    rw [hclean]
    exact noTwoSp_stripWS (collapseAux_noTwo (l.map replCtl)).1
  have e1 : (clean_text l).map replCtl = clean_text l := map_replCtl_id hyPlain
  have e2 : collapseWS (clean_text l) = clean_text l :=
    (collapseAux_fixed (clean_text l) hyPlain hyNoTwo).1
  have e3 : (clean_text l).filter keepChar = clean_text l :=
    List.filter_eq_self.mpr hyAllowed
  have e4 : stripWS (clean_text l) = clean_text l := by
    rw [hclean]; exact stripWS_idempotent _
  calc clean_text (clean_text l)
      = stripWS (((collapseWS ((clean_text l).map replCtl))).filter keepChar) := rfl
  _ = clean_text l := by rw [e1, collapseWS] at *; rw [e2, e3, e4]

/-- Witness for C2 (amended) at the all-allowed input `"a, b"`. -/
theorem C2_witness :
    (∀ c ∈ "a, b".toList, keepChar c = true) ∧
      clean_text (clean_text "a, b".toList) = clean_text "a, b".toList :=
  ⟨by decide, C2_clean_idempotent_on_allowed _ (by decide)⟩

/--
Claim C3 counterexample: the output of `clean_text` can contain an
underscore, which is neither alphanumeric, nor whitespace, nor in the
allowed punctuation set of the claim; the source keeps every regex word
character, and the word class contains the underscore.
-/
theorem C3_counterexample :
    clean_text "_".toList = "_".toList ∧ specAllowedChar '_' = false := by
  constructor <;> decide

/--
Claim C3 (amended): every character of the output of `clean_text` is
alphanumeric, an underscore, whitespace, or in the allowed punctuation set
(that is, satisfies the source predicate `keepChar`); the claim as stated
omits the underscore.
-/
theorem C3_clean_output_allowed (l : List Char) (c : Char)
    (hc : c ∈ clean_text l) : keepChar c = true := by
  rw [clean_text] at hc
  have := mem_stripWS hc
  exact List.of_mem_filter this

/-- Witness for C3 (amended) at the input `"a"`. -/
theorem C3_witness :
    ('a' ∈ clean_text "a".toList) ∧ keepChar 'a' = true :=
  ⟨by decide, C3_clean_output_allowed "a".toList 'a' (by decide)⟩

/-!
The merge/dedup stage of `merge_datasets.py` (lines 83-109).  A row of the
concatenated frame carries a name and coordinates; `pd.to_numeric(...,
errors to coerce)` turns an unparseable coordinate into NaN, modelled as
`none`.  The stage first drops rows with missing or out-of-bounds
coordinates (lines 93-98) and then drops duplicates of the key
(lowercased-stripped name, latitude rounded to 3 decimals, longitude
rounded to 3 decimals), keeping the first occurrence (lines 88-90 and
101-104).  Rows keep their frame index through both steps, modelled by
pairing each row with its position in the concatenated list.
-/

structure Row where
  name : List Char
  latitude : Option ℚ
  longitude : Option ℚ
deriving DecidableEq

/-- Pandas `.round(3)` modelled on rationals, with the rounded value scaled
by 1000 and kept as an integer (an injective recoding of the rounded value,
so key equality is unchanged).  Written with integer operations on the
numerator and denominator so that it evaluates inside the kernel; the lemma
`roundMilli_eq_round` identifies it with Mathlib's rounding of `x * 1000`. -/
def roundMilli (x : ℚ) : ℤ := Int.fdiv (2000 * x.num + x.den) (2 * x.den)

theorem roundMilli_eq_round (x : ℚ) : roundMilli x = round (x * 1000) := by
  rw [round_eq, roundMilli]
  have hden : ((x.den : ℚ)) ≠ 0 := by
    exact_mod_cast x.den_nz
  have hx : x * 1000 + 1/2 =
      ((2000 * x.num + (x.den : ℤ) : ℤ) : ℚ) / (((2 * x.den : ℕ) : ℕ) : ℚ) := by
    nth_rewrite 1 [← Rat.num_div_den x]
    push_cast
    field_simp
    ring
  rw [hx, Rat.floor_intCast_div_natCast]
  rw [Int.fdiv_eq_ediv _ (by positivity)]
  norm_num

/-- The key helper `name_lower` of line 88: lowercase, then strip. -/
def lowerStrip (n : List Char) : List Char := stripWS (n.map Char.toLower)

/-- The dedup key of lines 88-90 and 102: lowercased-stripped name and both
coordinates rounded to 3 decimals (stored scaled by 1000). -/
def dedupKey (r : Row) : List Char × Option ℤ × Option ℤ :=
  (lowerStrip r.name, r.latitude.map roundMilli, r.longitude.map roundMilli)

/-- The coordinate filter of lines 93-98: both coordinates present,
latitude in `[-11, 6]` and longitude in `[95, 141]` (inclusive, as pandas
`between`). -/
def validCoord (r : Row) : Bool :=
  match r.latitude, r.longitude with
  | some la, some lo =>
    decide (-11 ≤ la) && decide (la ≤ 6) && decide (95 ≤ lo) && decide (lo ≤ 141)
  | _, _ => false

/-- Pandas `drop_duplicates(subset, keep equal to first)`: keep an element
when its key has not been seen before it. -/
def dedupKeepFirst {α κ : Type} [DecidableEq κ] (f : α → κ) :
    List α → List κ → List α
  | [], _ => []
  | a :: as, seen =>
    if f a ∈ seen then dedupKeepFirst f as seen
    else a :: dedupKeepFirst f as (f a :: seen)

/-- The merge/dedup stage on the concatenated rows: index the rows, drop
invalid coordinates, then drop duplicate keys keeping the first. -/
def mergeDedup (rows : List Row) : List (Nat × Row) :=
  dedupKeepFirst (fun p => dedupKey p.2)
    ((rows.enum).filter fun p => validCoord p.2) []

theorem dedupKeepFirst_nil {α κ : Type} [DecidableEq κ] (f : α → κ)
    (seen : List κ) : dedupKeepFirst f [] seen = [] := rfl

theorem dedupKeepFirst_cons_seen {α κ : Type} [DecidableEq κ] {f : α → κ}
    {a : α} {as : List α} {seen : List κ} (h : f a ∈ seen) :
    dedupKeepFirst f (a :: as) seen = dedupKeepFirst f as seen := by
  simp [dedupKeepFirst, h]

theorem dedupKeepFirst_cons_new {α κ : Type} [DecidableEq κ] {f : α → κ}
    {a : α} {as : List α} {seen : List κ} (h : f a ∉ seen) :
    dedupKeepFirst f (a :: as) seen = a :: dedupKeepFirst f as (f a :: seen) := by
  simp [dedupKeepFirst, h]

theorem mem_dedupKeepFirst {α κ : Type} [DecidableEq κ] (f : α → κ) :
    ∀ (L : List α) (seen : List κ) (x : α),
      x ∈ dedupKeepFirst f L seen → x ∈ L := by
  intro L
  induction L with
  | nil => intro seen x hx; rw [dedupKeepFirst_nil] at hx; cases hx
  | cons a as ih =>
    intro seen x hx
    by_cases h : f a ∈ seen
    · rw [dedupKeepFirst_cons_seen h] at hx
      exact List.mem_cons_of_mem _ (ih _ _ hx)
    · rw [dedupKeepFirst_cons_new h] at hx
      rcases List.mem_cons.1 hx with rfl | hx
      · exact List.mem_cons_self _ _
      · exact List.mem_cons_of_mem _ (ih _ _ hx)

theorem not_mem_dedupKeepFirst_of_seen {α κ : Type} [DecidableEq κ] (f : α → κ) :
    ∀ (L : List α) (seen : List κ) (p : α),
      f p ∈ seen → p ∉ dedupKeepFirst f L seen := by
  intro L
  induction L with
  | nil => intro seen p _ hm; rw [dedupKeepFirst_nil] at hm; cases hm
  | cons a as ih =>
    intro seen p hseen hm
    by_cases h : f a ∈ seen
    · rw [dedupKeepFirst_cons_seen h] at hm
      exact ih _ _ hseen hm
    · rw [dedupKeepFirst_cons_new h] at hm
      rcases List.mem_cons.1 hm with rfl | hm
      · exact h hseen
      · exact ih _ _ (List.mem_cons_of_mem _ hseen) hm

theorem not_mem_dedupKeepFirst_later {α κ : Type} [DecidableEq κ] (f : α → κ)
    (p q : α) (L₂ : List α) (hf : f p = f q) (hpq : p ≠ q) :
    ∀ (L₁ : List α) (seen : List κ),
      p ∉ L₁ → p ∉ dedupKeepFirst f (L₁ ++ q :: L₂) seen := by
  intro L₁
  induction L₁ with
  | nil =>
    intro seen _ hm
    rw [List.nil_append] at hm
    by_cases h : f q ∈ seen
    · rw [dedupKeepFirst_cons_seen h] at hm
      exact not_mem_dedupKeepFirst_of_seen f L₂ seen p (hf ▸ h) hm
    · rw [dedupKeepFirst_cons_new h] at hm
      rcases List.mem_cons.1 hm with rfl | hm
      · exact hpq rfl
      · exact not_mem_dedupKeepFirst_of_seen f L₂ _ p
          (by rw [hf]; exact List.mem_cons_self _ _) hm
  | cons a as ih =>
    intro seen hnp hm
    have hpa : p ≠ a := fun h => hnp (h ▸ List.mem_cons_self _ _)
    have hnp' : p ∉ as := fun h => hnp (List.mem_cons_of_mem _ h)
    rw [List.cons_append] at hm
    by_cases h : f a ∈ seen
    · rw [dedupKeepFirst_cons_seen h] at hm
      exact ih _ hnp' hm
    · rw [dedupKeepFirst_cons_new h] at hm
      rcases List.mem_cons.1 hm with rfl | hm
      · exact hpa rfl
      · exact ih _ hnp' hm

theorem enum_take_fst {α : Type} (l : List α) (i : Nat) :
    ∀ p ∈ l.enum.take i, p.1 < i := by
  intro p hp
  rw [List.mem_iff_getElem] at hp
  obtain ⟨k, hk, hke⟩ := hp
  have hk2 : k < i := lt_of_lt_of_le hk (l.enum.length_take_le i)
  rw [List.getElem_take _, List.getElem_enum] at hke
  rw [← hke]
  exact hk2

/--
Claim C1 counterexample: two rows with equal dedup key (equal
lowercased-stripped name, equal rounded latitude `6.000`, equal rounded
longitude `100.000`), where the first row (latitude `6.0004`, outside the
bounding box) is removed by the coordinate filter that runs before
deduplication, so the merged dataset contains the second such row, not the
first one, contradicting the claim as stated.
-/
theorem C1_counterexample :
    dedupKey ⟨"a".toList, some (Rat.mk' 15001 2500 (by decide) (by decide)),
          some 100⟩ =
        dedupKey ⟨"a".toList, some (Rat.mk' 14999 2500 (by decide) (by decide)),
          some 100⟩ ∧
      validCoord ⟨"a".toList, some (Rat.mk' 15001 2500 (by decide) (by decide)),
          some 100⟩ = false ∧
      (1, ⟨"a".toList, some (Rat.mk' 14999 2500 (by decide) (by decide)),
          some 100⟩) ∈
        mergeDedup [⟨"a".toList, some (Rat.mk' 15001 2500 (by decide) (by decide)),
            some 100⟩,
          ⟨"a".toList, some (Rat.mk' 14999 2500 (by decide) (by decide)),
            some 100⟩] ∧
      (0, ⟨"a".toList, some (Rat.mk' 15001 2500 (by decide) (by decide)),
          some 100⟩) ∉
        mergeDedup [⟨"a".toList, some (Rat.mk' 15001 2500 (by decide) (by decide)),
            some 100⟩,
          ⟨"a".toList, some (Rat.mk' 14999 2500 (by decide) (by decide)),
            some 100⟩] := by
  refine ⟨by decide, by decide, by decide, by decide⟩

/--
Claim C1 (amended): for any two rows of the concatenated sources with equal
dedup key (equal lowercased-trimmed name, equal latitude and longitude after
rounding to 3 decimals), where the earlier row passes the coordinate filter,
the merged dataset does not contain the later row — only the first such
surviving row is kept.  The claim as stated fails only when the earlier row
is itself removed by the coordinate bounds filter, which runs before
deduplication (see the counterexample).
-/
theorem C1_dedup_first_survivor (rows : List Row) (i j : Nat)
    (hj : j < rows.length) (hij : i < j)
    (hvalid : validCoord (rows.get ⟨i, lt_trans hij hj⟩) = true)
    (hkey : dedupKey (rows.get ⟨i, lt_trans hij hj⟩) =
      dedupKey (rows.get ⟨j, hj⟩)) :
    (j, rows.get ⟨j, hj⟩) ∉ mergeDedup rows := by
  intro hmem
  have hi : i < rows.length := lt_trans hij hj
  have hilen : i < rows.enum.length := by rw [List.enum_length]; exact hi
  have hjlen : j < rows.enum.length := by rw [List.enum_length]; exact hj
  have hgi : rows.enum[i] = (i, rows.get ⟨i, hi⟩) := by
    rw [List.getElem_enum]; rfl
  have hdecomp : rows.enum =
      rows.enum.take i ++ (i, rows.get ⟨i, hi⟩) :: rows.enum.drop (i + 1) := by
    conv_lhs => rw [← List.take_append_drop i rows.enum]
    rw [List.drop_eq_getElem_cons hilen, hgi]
  set P : Nat × Row → Bool := fun p => validCoord p.2 with hP
  have hfsplit : rows.enum.filter P =
      (rows.enum.take i).filter P ++
        (i, rows.get ⟨i, hi⟩) :: (rows.enum.drop (i + 1)).filter P := by
    conv_lhs => rw [hdecomp]
    rw [List.filter_append, List.filter_cons]
    simp only [hP, hvalid, if_true]
  have hnotL₁ : (j, rows.get ⟨j, hj⟩) ∉ (rows.enum.take i).filter P := by
    intro hmem'
    have := enum_take_fst rows i _ (List.mem_of_mem_filter hmem')
    simp only at this
    omega
  have hne : (j, rows.get ⟨j, hj⟩) ≠ (i, rows.get ⟨i, hi⟩) := by
    intro h
    have := congrArg Prod.fst h
    simp only at this
    omega
  have hfk : (fun p : Nat × Row => dedupKey p.2) (j, rows.get ⟨j, hj⟩) =
      (fun p : Nat × Row => dedupKey p.2) (i, rows.get ⟨i, hi⟩) := hkey.symm
  rw [mergeDedup, hfsplit] at hmem
  exact not_mem_dedupKeepFirst_later (fun p : Nat × Row => dedupKey p.2)
    (j, rows.get ⟨j, hj⟩) (i, rows.get ⟨i, hi⟩) _ hfk hne _ _ hnotL₁ hmem

/--
Witness for C1 (amended) at the claim's own example: source row A
("Pantai Indah", -8.123456, 115.654321) precedes source row B
("pantai indah ", -8.123489, 115.654298); their dedup keys agree, A is
within bounds, and merge keeps only A's row: B's row is absent.
-/
theorem C1_witness :
    (1, Row.mk "pantai indah ".toList
        (some (Rat.mk' (-8123489) 1000000 (by decide) (by decide)))
        (some (Rat.mk' 57827149 500000 (by decide) (by decide)))) ∉
      mergeDedup [⟨"Pantai Indah".toList,
          some (Rat.mk' (-126929) 15625 (by decide) (by decide)),
          some (Rat.mk' 115654321 1000000 (by decide) (by decide))⟩,
        ⟨"pantai indah ".toList,
          some (Rat.mk' (-8123489) 1000000 (by decide) (by decide)),
          some (Rat.mk' 57827149 500000 (by decide) (by decide))⟩] :=
  C1_dedup_first_survivor _ 0 1 (by decide) (by decide) (by decide) (by decide)

/--
Claim C4: every row of the merged dataset has both coordinates present and
within the country bounding box (latitude in `[-11, 6]`, longitude in
`[95, 141]`); equivalently, any row with a missing, non-numeric or
out-of-bounds coordinate is absent from the merged dataset.
-/
theorem C4_invalid_coords_absent (rows : List Row) (p : Nat × Row)
    (hp : p ∈ mergeDedup rows) : validCoord p.2 = true := by
  rw [mergeDedup] at hp
  have hmem := mem_dedupKeepFirst _ _ _ _ hp
  have h2 := (List.mem_filter.1 hmem).2
  simpa using h2

/-- Witness for C4 at a concrete merged dataset with one in-bounds row. -/
theorem C4_witness :
    validCoord ⟨"a".toList, some (-8), some 115⟩ = true :=
  C4_invalid_coords_absent [⟨"a".toList, some (-8), some 115⟩]
    (0, ⟨"a".toList, some (-8), some 115⟩) (by decide)

/-!
Embedding generation (`scripts/import-data.py` lines 136-185 and
`scripts/import-data-parallel.py` lines 144-163).  The external embedding
service is an oracle parameter: it returns `some v` when the remote call
returns vector `v` and `none` when it raises.  An `EmbedTrace` records the
returned vector together with the number of service calls made and the
sleeps performed, so that "without calling the external service" and the
backoff schedule are statable.
-/

def EMBEDDING_DIMENSION : Nat := 768

def zeroVec : List ℚ := List.replicate EMBEDDING_DIMENSION 0

structure EmbedTrace where
  value : List ℚ
  calls : Nat
  delays : List ℚ
deriving DecidableEq

/-- The base delay of `time.sleep(1.0 * attempt)` in
`generate_embedding` (import-data.py line 152). -/
def backoffBase : ℚ := 1

/-- The retry loop of `generate_embedding` (import-data.py lines 136-155):
`for attempt in range(1, 4)`, call the service; on success return its
vector; on an exception, sleep `1.0 * attempt` and retry when
`attempt < 3`, else return the zero vector.  `svc a` is the outcome of the
service call made on attempt `a`. -/
def embedGo (svc : Nat → Option (List ℚ)) (attempt : Nat) (delays : List ℚ) :
    EmbedTrace :=
  match svc attempt with
  | some v => ⟨v, attempt, delays⟩
  | none =>
    if _h : attempt < 3 then
      embedGo svc (attempt + 1) (delays ++ [backoffBase * (attempt : ℚ)])
    else ⟨zeroVec, attempt, delays⟩
termination_by 3 - attempt

def generate_embedding (svc : Nat → Option (List ℚ)) : EmbedTrace :=
  embedGo svc 1 []

theorem embedGo_success {svc : Nat → Option (List ℚ)} {a : Nat}
    {d : List ℚ} {v : List ℚ} (h : svc a = some v) :
    embedGo svc a d = ⟨v, a, d⟩ := by
  rw [embedGo, h]

theorem embedGo_fail_retry {svc : Nat → Option (List ℚ)} {a : Nat}
    {d : List ℚ} (h : svc a = none) (ha : a < 3) :
    embedGo svc a d = embedGo svc (a + 1) (d ++ [backoffBase * (a : ℚ)]) := by
  rw [embedGo, h]
  rw [dif_pos ha]

theorem embedGo_exhaust {svc : Nat → Option (List ℚ)} {d : List ℚ}
    (h : svc 3 = none) : embedGo svc 3 d = ⟨zeroVec, 3, d⟩ := by
  rw [embedGo, h]
  rw [dif_neg (by omega)]

/-- The batch operation `generate_embeddings_batch` (import-data.py lines
157-185): every text is embedded by `generate_embedding` and the result is
stored at the slot of its input index (`embeddings[idx] = emb`), so the
output denotes a per-index map of the inputs.  There is no empty-text
short-circuit in this variant: `generate_embedding` is invoked on every
text, including the empty one. -/
def generate_embeddings_batch (svc : List Char → Nat → Option (List ℚ))
    (texts : List (List Char)) : List EmbedTrace :=
  texts.map fun t => generate_embedding (svc t)

/-- `generate_embedding` of import-data-parallel.py (lines 144-163): a
missing (`None`) or empty/whitespace-only text short-circuits to the zero
vector without calling the service; otherwise the text is truncated to 500
characters and embedded with a single service call, any exception yielding
the zero vector. -/
def generate_embedding_par (svc : List Char → Option (List ℚ))
    (text : Option (List Char)) : EmbedTrace :=
  match text with
  | none => ⟨zeroVec, 0, []⟩
  | some t =>
    if stripWS t = [] then ⟨zeroVec, 0, []⟩
    else
      match svc (t.take 500) with
      | some v => ⟨v, 1, []⟩
      | none => ⟨zeroVec, 1, []⟩

/-- The parallel batch `generate_embeddings_parallel`
(import-data-parallel.py lines 165-182): `thread_map` keeps the result of
input `i` at output slot `i`. -/
def generate_embeddings_parallel (svc : List Char → Option (List ℚ))
    (texts : List (Option (List Char))) : List EmbedTrace :=
  texts.map (generate_embedding_par svc)

/--
Claim C5 counterexample: the batch embedder of import-data.py, run on the
single empty text against a service that answers every call, makes one
service call and returns the service's vector — the claim's "zero vector
without calling the external embedding service" fails on this cited
variant, which has no empty-text short-circuit.
-/
theorem C5_counterexample :
    generate_embeddings_batch (fun _ _ => some (List.replicate 768 (1 : ℚ)))
        [[]] =
      [⟨List.replicate 768 (1 : ℚ), 1, []⟩] ∧
    (⟨List.replicate 768 (1 : ℚ), 1, []⟩ : EmbedTrace).calls ≠ 0 ∧
    (⟨List.replicate 768 (1 : ℚ), 1, []⟩ : EmbedTrace).value ≠ zeroVec := by
  refine ⟨?_, by decide, by decide⟩
  rw [generate_embeddings_batch, List.map_cons, List.map_nil,
    generate_embedding, embedGo]

/--
Claim C5 (amended): the parallel variant's batch embedder returns a list of
the same length as its input, the result at position `i` being the
embedding of the input at position `i`, and every missing (`None`) or
empty/whitespace-only input yields the zero vector of the configured
dimension with zero service calls.  In the import-data.py variant the
length/order part also holds, but the empty-text short-circuit does not
(see the counterexample).
-/
theorem C5_batch_parallel (svc : List Char → Option (List ℚ))
    (texts : List (Option (List Char))) :
    (generate_embeddings_parallel svc texts).length = texts.length ∧
    (∀ i : Nat, (generate_embeddings_parallel svc texts)[i]? =
      (texts[i]?).map (generate_embedding_par svc)) ∧
    (∀ (i : Nat) (t? : Option (List Char)), texts[i]? = some t? →
      (t? = none ∨ ∃ t, t? = some t ∧ stripWS t = []) →
      (generate_embeddings_parallel svc texts)[i]? =
        some ⟨zeroVec, 0, []⟩) := by
  refine ⟨List.length_map _ _, ?_, ?_⟩
  · intro i
    exact List.getElem?_map _ _ _
  · intro i t? ht hempty
    rw [generate_embeddings_parallel, List.getElem?_map, ht]
    rcases hempty with rfl | ⟨t, rfl, hstrip⟩
    · rfl
    · simp [generate_embedding_par, hstrip]

/-- Witness for C5 (amended) at the spec's example batch
`["", "valid text", None]`: output length 3, and the first and last
results are the zero vector with zero service calls. -/
theorem C5_witness :
    (generate_embeddings_parallel
        (fun _ => some (List.replicate 768 (1 : ℚ)))
        [some [], some "valid text".toList, none]).length = 3 ∧
    (generate_embeddings_parallel
        (fun _ => some (List.replicate 768 (1 : ℚ)))
        [some [], some "valid text".toList, none])[0]? =
      some ⟨zeroVec, 0, []⟩ ∧
    (generate_embeddings_parallel
        (fun _ => some (List.replicate 768 (1 : ℚ)))
        [some [], some "valid text".toList, none])[2]? =
      some ⟨zeroVec, 0, []⟩ :=
  ⟨(C5_batch_parallel _ _).1,
    (C5_batch_parallel _ _).2.2 0 (some []) rfl (Or.inr ⟨[], rfl, rfl⟩),
    (C5_batch_parallel _ _).2.2 2 none rfl (Or.inl rfl)⟩

/--
Claim C6: the single-item embedding operation of import-data.py never
raises (every service outcome is handled, so the model is a total
function); it makes at most 3 service calls; a first-attempt success
returns the service's vector with no sleeps; and when all 3 attempts fail
it sleeps `base * 1` then `base * 2` and returns the zero vector of the
configured dimension 768.
-/
theorem C6_embedding_retry (svc : Nat → Option (List ℚ)) :
    (generate_embedding svc).calls ≤ 3 ∧
    (∀ v, svc 1 = some v → generate_embedding svc = ⟨v, 1, []⟩) ∧
    (svc 1 = none → svc 2 = none → svc 3 = none →
      generate_embedding svc =
        ⟨List.replicate 768 0, 3, [backoffBase * 1, backoffBase * 2]⟩) := by
  refine ⟨?_, ?_, ?_⟩
  · rcases h1 : svc 1 with _ | v1
    · rcases h2 : svc 2 with _ | v2
      · rcases h3 : svc 3 with _ | v3
        · rw [generate_embedding, embedGo_fail_retry h1 (by omega),
            embedGo_fail_retry h2 (by omega), embedGo_exhaust h3]
        · rw [generate_embedding, embedGo_fail_retry h1 (by omega),
            embedGo_fail_retry h2 (by omega), embedGo_success h3]
      · rw [generate_embedding, embedGo_fail_retry h1 (by omega),
          embedGo_success h2]
        exact Nat.le_succ 2
    · rw [generate_embedding, embedGo_success h1]
      exact Nat.le_succ_of_le (Nat.le_succ 1)
  · intro v h1
    rw [generate_embedding, embedGo_success h1]
  · intro h1 h2 h3
    rw [generate_embedding, embedGo_fail_retry h1 (by omega),
      embedGo_fail_retry h2 (by omega), embedGo_exhaust h3]
    rfl

/-- Witness for C6 at the always-failing service: the result is the
768-dimensional zero vector after 3 calls with sleeps of 1 and 2
seconds. -/
theorem C6_witness :
    generate_embedding (fun _ => (none : Option (List ℚ))) =
      ⟨List.replicate 768 0, 3, [backoffBase * 1, backoffBase * 2]⟩ :=
  (C6_embedding_retry _).2.2 rfl rfl rfl

/-!
Bulk loading.  Two variants exist in the source.  `import_to_firestore` of
import-data.py (lines 427-459) uploads each destination with its own
`doc_ref.set` call inside a try/except: a failed document is logged and
skipped and the ids of successfully uploaded documents are collected in
order.  `upload_to_firestore` of import-data-optimized.py (lines 152-173)
slices the list into chunks of `BATCH_SIZE = 100`, commits each chunk as
one batch write with no exception handling (a raised commit propagates and
aborts the upload) and returns no ids, only counting batches.  The store
is an oracle: `idOf i` is the store-generated id of the i-th document and
`ok i` (or `commitOk k` for batches) tells whether the i-th commit
succeeds.
-/

def uploadDocs {α ι : Type} (idOf : Nat → ι) (ok : Nat → Bool) :
    List α → Nat → List ι
  | [], _ => []
  | _ :: rest, i =>
    if ok i then idOf i :: uploadDocs idOf ok rest (i + 1)
    else uploadDocs idOf ok rest (i + 1)

/-- The per-document upload loop of import-data.py `import_to_firestore`,
started at the first document. -/
def import_to_firestore {α ι : Type} (idOf : Nat → ι) (ok : Nat → Bool)
    (dests : List α) : List ι :=
  uploadDocs idOf ok dests 0

/-- `range(0, len(destinations), batch_size)` slicing: the loop indices
`i = 0, n, 2n, ...` below the length (the multiples of `n` below the
length), and the chunks `destinations[i:i+n]`. -/
def chunksOf {α : Type} (n : Nat) (l : List α) : List (List α) :=
  ((List.range l.length).filter fun i => i % n = 0).map
    fun i => (l.drop i).take n

/-- The batch loop of import-data-optimized.py `upload_to_firestore`,
carrying `batch_num`: each chunk is committed as one atomic batch; an
exception on commit propagates, aborting the upload. -/
def uploadOptGo {α : Type} (commitOk : Nat → Bool) :
    List (List α) → Nat → Except Unit Nat
  | [], n => .ok n
  | _ :: rest, n =>
    if commitOk n then uploadOptGo commitOk rest (n + 1) else .error ()

def upload_to_firestore_optimized {α : Type} (commitOk : Nat → Bool)
    (dests : List α) : Except Unit Nat :=
  uploadOptGo commitOk (chunksOf 100 dests) 0

instance : DecidableEq (Except Unit Nat) := fun a b =>
  match a, b with
  | .ok x, .ok y => decidable_of_iff (x = y) (by simp)
  | .error x, .error y => decidable_of_iff (x = y) (by simp)
  | .ok _, .error _ => isFalse (fun h => by cases h)
  | .error _, .ok _ => isFalse (fun h => by cases h)

theorem uploadDocs_eq_filter {α ι : Type} (idOf : Nat → ι) (ok : Nat → Bool) :
    ∀ (l : List α) (s : Nat),
      uploadDocs idOf ok l s = ((List.range' s l.length).filter ok).map idOf := by
  intro l
  induction l with
  | nil => intro s; rfl
  | cons a as ih =>
    intro s
    rw [List.length_cons, List.range'_succ, List.filter_cons]
    by_cases h : ok s
    · rw [uploadDocs, if_pos h, if_pos h, List.map_cons, ih]
    · rw [uploadDocs, if_neg h, if_neg h, ih]

theorem uploadOptGo_all_ok {α : Type} (commitOk : Nat → Bool) :
    ∀ (L : List (List α)) (s : Nat),
      (∀ k, k < L.length → commitOk (s + k) = true) →
      uploadOptGo commitOk L s = .ok (s + L.length) := by
  intro L
  induction L with
  | nil => intro s _; rfl
  | cons c cs ih =>
    intro s hok
    have h0 : commitOk s = true := by
      have := hok 0 (by rw [List.length_cons]; omega)
      simpa using this
    rw [uploadOptGo, if_pos h0, ih]
    · rw [List.length_cons]
      congr 1
      omega
    · intro k hk
      have := hok (k + 1) (by rw [List.length_cons]; omega)
      rw [show s + 1 + k = s + (k + 1) by omega]
      exact this

theorem uploadOptGo_abort {α : Type} (commitOk : Nat → Bool) :
    ∀ (L : List (List α)) (s k : Nat), k < L.length →
      commitOk (s + k) = false → (∀ m, m < k → commitOk (s + m) = true) →
      uploadOptGo commitOk L s = .error () := by
  intro L
  induction L with
  | nil =>
    intro s k hk
    exact absurd hk (by simp)
  | cons c cs ih =>
    intro s k hk hfail hbefore
    rcases k with _ | j
    · rw [uploadOptGo]
      rw [if_neg (by simpa using hfail)]
    · have h0 : commitOk s = true := by
        have := hbefore 0 (by omega)
        simpa using this
      rw [uploadOptGo, if_pos h0]
      refine ih (s + 1) j (by rw [List.length_cons] at hk; omega) ?_ ?_
      · rw [show s + 1 + j = s + (j + 1) by omega]
        exact hfail
      · intro m hm
        have := hbefore (m + 1) (by omega)
        rw [show s + 1 + m = s + (m + 1) by omega]
        exact this

set_option maxRecDepth 40000 in
/--
Claim C7 counterexample: the batching loader of import-data-optimized.py
slices 1200 records into 12 batches of size 100, not 3 batches bounded by
500; and when the commit of a middle batch (batch 5) raises, the upload
aborts with the propagated error instead of skipping the chunk and
returning the 700 successfully committed ids — no id list is returned at
all.
-/
theorem C7_counterexample :
    (chunksOf 100 (List.replicate 1200 (0 : Nat))).length = 12 ∧
      (chunksOf 100 (List.replicate 1200 (0 : Nat))).length ≠ 3 ∧
      upload_to_firestore_optimized (fun n => decide (n ≠ 5))
        (List.replicate 1200 (0 : Nat)) = .error () := by
  refine ⟨by decide, by decide, by decide⟩

set_option maxRecDepth 40000 in
/--
Claim C7 (amended): import-data.py's loader commits each record
individually in input order (not in chunks of 500), skips a record whose
commit raises, and returns exactly the store ids of the successfully
committed records in commit order — loading 1200 records with the middle
500 commits failing returns exactly 700 ids; import-data-optimized.py's
loader partitions the records into batches of 100 committed atomically
(so 1200 records produce 12 commit batches, all of which must succeed to
finish) and a failed batch commit aborts the upload instead of being
skipped, returning no ids.
-/
theorem C7_loader_semantics (α : Type) :
    (∀ (idOf : Nat → Nat) (ok : Nat → Bool) (dests : List α),
      import_to_firestore idOf ok dests =
        ((List.range dests.length).filter ok).map idOf) ∧
    (import_to_firestore (fun i => i)
        (fun i => decide (i < 500 ∨ 1000 ≤ i))
        (List.replicate 1200 (0 : Nat))).length = 700 ∧
    (∀ (commitOk : Nat → Bool) (dests : List α),
      ((∀ k, k < (chunksOf 100 dests).length → commitOk k = true) →
        upload_to_firestore_optimized commitOk dests =
          .ok (chunksOf 100 dests).length) ∧
      (∀ k, k < (chunksOf 100 dests).length → commitOk k = false →
        (∀ m, m < k → commitOk m = true) →
        upload_to_firestore_optimized commitOk dests = .error ())) := by
  refine ⟨?_, ?_, ?_⟩
  · intro idOf ok dests
    rw [import_to_firestore, uploadDocs_eq_filter, List.range_eq_range']
  · rw [import_to_firestore, uploadDocs_eq_filter, ← List.range_eq_range']
    decide
  · intro commitOk dests
    constructor
    · intro hok
      rw [upload_to_firestore_optimized]
      rw [uploadOptGo_all_ok commitOk _ 0 (by simpa using hok)]
      rw [Nat.zero_add]
    · intro k hk hfail hbefore
      rw [upload_to_firestore_optimized]
      exact uploadOptGo_abort commitOk _ 0 k hk (by simpa using hfail)
        (by simpa using hbefore)

set_option maxRecDepth 40000 in
/-- Witness for C7 (amended): 250 records with every batch commit
succeeding upload in 3 batches of at most 100. -/
theorem C7_witness :
    upload_to_firestore_optimized (fun _ => true)
      (List.replicate 250 (0 : Nat)) = .ok 3 := by
  have h := ((C7_loader_semantics Nat).2.2 (fun _ => true)
      (List.replicate 250 (0 : Nat))).1 (fun _ _ => rfl)
  rw [h]
  decide

/-!
Index building (`import-data.py` lines 461-491 and
`import-data-parallel.py` lines 210-229).  The faiss library is external:
its in-place `normalize_L2` is an oracle function parameter in the
import-data.py model; the index contents are the list of vectors passed to
`index.add`, in insertion order.
-/

structure Dest where
  name : List Char
  category : List Char
  provinsi : List Char
  isCultural : Bool
  latitude : ℚ
  longitude : ℚ
  embedding : List ℚ
deriving DecidableEq

/-- The mapping entry appended by import-data.py `build_faiss_index`
(lines 471-477): document id plus name, category, province and the
cultural flag.  Store ids are abstracted as naturals. -/
structure MapEntry where
  docId : Nat
  name : List Char
  category : List Char
  provinsi : List Char
  isCultural : Bool
deriving DecidableEq

def mkEntry (d : Dest) (docId : Nat) : MapEntry :=
  ⟨docId, d.name, d.category, d.provinsi, d.isCultural⟩

/-- The filtering loop of import-data.py `build_faiss_index` (lines
468-477): walk `zip(destinations, document_ids)`; when the destination has
a non-empty embedding (the Python truthiness of the embedding list),
append the embedding to the vector list and the entry to the mapping. -/
def buildLoop : List (Dest × Nat) → List (List ℚ) × List MapEntry
  | [] => ([], [])
  | (d, i) :: rest =>
    if d.embedding ≠ [] then
      (d.embedding :: (buildLoop rest).1, mkEntry d i :: (buildLoop rest).2)
    else buildLoop rest

/-- import-data.py `build_faiss_index`: collect kept embeddings and
mapping, apply the faiss `normalize_L2` to the collected vectors, and add
them to the index; the first component is the list of vectors added. -/
def build_faiss_index (normalizeL2 : List ℚ → List ℚ) (dests : List Dest)
    (docIds : List Nat) : List (List ℚ) × List MapEntry :=
  ((buildLoop (dests.zip docIds)).1.map normalizeL2,
    (buildLoop (dests.zip docIds)).2)

/-- The mapping entry of the parallel variant (import-data-parallel.py
lines 218-227): positional id plus name, category, province, cultural
flag and both coordinates. -/
structure MapEntryPar where
  id : Nat
  name : List Char
  category : List Char
  provinsi : List Char
  isCultural : Bool
  latitude : ℚ
  longitude : ℚ
deriving DecidableEq

def mkEntryPar (idx : Nat) (d : Dest) : MapEntryPar :=
  ⟨idx, d.name, d.category, d.provinsi, d.isCultural, d.latitude, d.longitude⟩

/-- import-data-parallel.py `build_faiss_index` (lines 210-229): the
embeddings array is added to the index as is — there is no call to
`normalize_L2` — and one mapping entry is appended per destination. -/
def build_faiss_index_parallel (dests : List Dest)
    (embeddings : List (List ℚ)) : List (List ℚ) × List MapEntryPar :=
  (embeddings, dests.enum.map fun p => mkEntryPar p.1 p.2)

/-- The squared Euclidean norm, used to state L2 normalization without
square roots: a (nonzero) L2-normalized vector has squared norm 1. -/
def sumSq (v : List ℚ) : ℚ := (v.map fun x => x * x).sum

theorem buildLoop_eq (L : List (Dest × Nat)) :
    buildLoop L =
      ((L.filter fun p => p.1.embedding ≠ []).map fun p => p.1.embedding,
        (L.filter fun p => p.1.embedding ≠ []).map fun p => mkEntry p.1 p.2) := by
  induction L with
  | nil => rfl
  | cons p ps ih =>
    rcases p with ⟨d, i⟩
    by_cases h : d.embedding = []
    · simp only [buildLoop, ih, List.filter_cons, h]
      simp
    · simp only [buildLoop, ih, List.filter_cons]
      simp [h]

set_option maxRecDepth 40000 in
/--
Claim C8 counterexample: the parallel variant's index builder inserts the
embedding vectors exactly as produced, with no `normalize_L2` call: a
vector of squared norm 4 (so neither L2-normalized nor the zero vector)
is added to the index unchanged, contradicting "every vector is
L2-normalized before insertion" for this cited builder.
-/
theorem C8_counterexample :
    (build_faiss_index_parallel
        [⟨"a".toList, "k".toList, "p".toList, false, 0, 0,
          2 :: List.replicate 767 0⟩]
        [2 :: List.replicate 767 0]).1 = [2 :: List.replicate 767 0] ∧
      sumSq (2 :: List.replicate 767 (0 : ℚ)) = 4 ∧
      (2 :: List.replicate 767 (0 : ℚ)) ≠ zeroVec := by
  refine ⟨rfl, ?_, by decide⟩
  rw [sumSq, List.map_cons, List.map_replicate, List.sum_cons,
    List.sum_replicate]
  norm_num

/--
Claim C8 (amended): for import-data.py's index builder the invariant holds
for every input list (hence at every point of construction): there is
exactly one mapping entry per paired record with a non-empty embedding,
the vector list and the mapping have equal length, the faiss normalization
is applied to every kept vector before insertion, and `mapping[i]`
describes the record whose (normalized) vector sits at index position `i`.
The parallel variant instead inserts the raw vectors without
normalization and maps every record (see the counterexample).
-/
theorem C8_index_builder (normalizeL2 : List ℚ → List ℚ) (dests : List Dest)
    (docIds : List Nat) :
    (build_faiss_index normalizeL2 dests docIds).1.length =
        (build_faiss_index normalizeL2 dests docIds).2.length ∧
      (build_faiss_index normalizeL2 dests docIds).2.length =
        (dests.zip docIds).countP (fun p => p.1.embedding ≠ []) ∧
      (∀ (i : Nat) (e : MapEntry),
        (build_faiss_index normalizeL2 dests docIds).2[i]? = some e →
        ∃ d docId, (d, docId) ∈ dests.zip docIds ∧ d.embedding ≠ [] ∧
          e = mkEntry d docId ∧
          (build_faiss_index normalizeL2 dests docIds).1[i]? =
            some (normalizeL2 d.embedding)) := by
  have hb := buildLoop_eq (dests.zip docIds)
  refine ⟨?_, ?_, ?_⟩
  · rw [build_faiss_index, hb]
    simp [List.length_map]
  · rw [build_faiss_index, hb]
    simp only [List.length_map]
    rw [List.countP_eq_length_filter]
  · intro i e he
    rw [build_faiss_index, hb] at he ⊢
    simp only [List.getElem?_map] at he
    rcases hK : ((dests.zip docIds).filter fun p => p.1.embedding ≠ [])[i]?
      with _ | p
    · rw [hK] at he
      cases he
    · rw [hK] at he
      simp only [Option.map_some', Option.some.injEq] at he
      have hpmem : p ∈ (dests.zip docIds).filter fun p => p.1.embedding ≠ [] :=
        List.getElem?_mem hK
      rw [List.mem_filter] at hpmem
      refine ⟨p.1, p.2, hpmem.1, by simpa using hpmem.2, he.symm, ?_⟩
      simp only [List.getElem?_map, hK, Option.map_some']

/-- Witness for C8 (amended) at a one-record input with a non-empty
embedding, the identity as the faiss normalization oracle, and store id
7. -/
theorem C8_witness :
    ∃ d docId,
      (d, docId) ∈
        [(⟨"a".toList, "k".toList, "p".toList, false, 0, 0, [1]⟩ : Dest)].zip
          [7] ∧
      d.embedding ≠ [] ∧
      (⟨7, "a".toList, "k".toList, "p".toList, false⟩ : MapEntry) =
        mkEntry d docId ∧
      (build_faiss_index (fun v => v)
          [⟨"a".toList, "k".toList, "p".toList, false, 0, 0, [1]⟩] [7]).1[0]? =
        some ((fun v => v) d.embedding) :=
  (C8_index_builder (fun v => v)
    [⟨"a".toList, "k".toList, "p".toList, false, 0, 0, [1]⟩] [7]).2.2 0
    ⟨7, "a".toList, "k".toList, "p".toList, false⟩ (by decide)

/-!
Search (`import-data.py`).  The class defines `search_faiss` twice; the
second definition (lines 510-528) shadows the first (lines 189-211) and is
the one that runs.  The faiss `index.search` outcome is modelled as the
list of (score, position) pairs of its top row; faiss returns the position
-1 for slots beyond the number of stored vectors.
-/

/-- Python list subscription `l[i]` with an integer index: a negative
index counts from the end; an index out of range raises, modelled as
`none`. -/
def pyGet {α : Type} (l : List α) (i : ℤ) : Option α :=
  if 0 ≤ i then l[i.toNat]?
  else if 0 ≤ (l.length : ℤ) + i then l[((l.length : ℤ) + i).toNat]?
  else none

/-- The effective, second `search_faiss` (lines 510-528): for each
(score, idx) pair keep `index_mapping[idx]` whenever
`idx < len(index_mapping)` — there is no `idx >= 0` check and no
try/except, so a raised IndexError (modelled `none`) propagates. -/
def search_faiss_effective {α : Type} (mapping : List α) :
    List (ℚ × ℤ) → Option (List (α × ℚ))
  | [] => some []
  | (s, i) :: rest =>
    if i < (mapping.length : ℤ) then
      match pyGet mapping i with
      | none => none
      | some e => (search_faiss_effective mapping rest).map fun r => (e, s) :: r
    else search_faiss_effective mapping rest

/-- The shadowed first `search_faiss` (lines 189-211): it additionally
checks `idx >= 0`, skipping the -1 sentinel, so every kept position is a
valid position of the mapping. -/
def search_faiss_shadowed {α : Type} (mapping : List α)
    (hits : List (ℚ × ℤ)) : List (α × ℚ) :=
  hits.filterMap fun p =>
    if 0 ≤ p.2 ∧ p.2 < (mapping.length : ℤ) then
      (mapping[p.2.toNat]?).map fun e => (e, p.1)
    else none

/--
Claim C9 (code bug): on a one-entry mapping queried with k = 2, faiss
returns positions 0 and -1; the effective (second) `search_faiss`
definition lacks the `idx >= 0` guard of the shadowed first definition, so
the -1 sentinel is not skipped: Python's negative indexing resolves
`index_mapping[-1]` to the last entry and the result contains it as a
bogus second hit, where the shadowed definition (and the claim) return
only the position-0 entry.
-/
theorem C9_sentinel_not_skipped :
    search_faiss_effective ["x".toList] [((1 : ℚ), (0 : ℤ)), ((1 : ℚ), -1)] =
        some [("x".toList, (1 : ℚ)), ("x".toList, (1 : ℚ))] ∧
      search_faiss_shadowed ["x".toList] [((1 : ℚ), (0 : ℤ)), ((1 : ℚ), -1)] =
        [("x".toList, (1 : ℚ))] := by
  constructor <;> decide

/-!
Row normalization of the import pipeline
(`import-data-optimized.py` lines 122-147, `process_destinations`, and
`import-data-parallel.py` lines 95-124, `normalize_destination`).  A row's
coordinates are `none` when the `float()` conversion raises (the handler
then skips the row); otherwise the built destination is kept only when
`name`, `latitude` and `longitude` are all Python-truthy.
-/

structure CsvRow where
  name : List Char
  latitude : Option ℚ
  longitude : Option ℚ
deriving DecidableEq

structure DestN where
  name : List Char
  latitude : ℚ
  longitude : ℚ
deriving DecidableEq

/-- One row of `process_destinations` / `normalize_destination`: build the
destination (a raised conversion yields `none`), then the truthiness check
`if dest['name'] and dest['latitude'] and dest['longitude']` keeps it only
when the stripped name is non-empty and neither coordinate equals 0. -/
def normalize_destination (r : CsvRow) : Option DestN :=
  match r.latitude, r.longitude with
  | some la, some lo =>
    if stripWS r.name ≠ [] ∧ la ≠ 0 ∧ lo ≠ 0 then
      some ⟨stripWS r.name, la, lo⟩
    else none
  | _, _ => none

def process_destinations (rows : List CsvRow) : List DestN :=
  rows.filterMap normalize_destination

/--
Claim C10: every destination produced by the import pipeline's row
normalization has a non-empty name and nonzero coordinates; a row whose
latitude or longitude parses to exactly 0, or whose name strips to empty,
or whose coordinate fails to parse, is silently excluded by the
truthiness check — even though latitude 0 passes the merge stage's
country bounding box filter, so such a record never reaches the
destinations list handed to the document store and the vector index.
-/
theorem C10_truthiness_filter :
    (∀ (rows : List CsvRow) (d : DestN), d ∈ process_destinations rows →
      d.name ≠ [] ∧ d.latitude ≠ 0 ∧ d.longitude ≠ 0) ∧
      (∀ r : CsvRow, r.latitude = some 0 ∨ r.longitude = some 0 ∨
          r.latitude = none ∨ r.longitude = none →
        normalize_destination r = none) ∧
      validCoord ⟨"a".toList, some 0, some 100⟩ = true := by
  refine ⟨?_, ?_, by decide⟩
  · intro rows d hd
    rw [process_destinations, List.mem_filterMap] at hd
    obtain ⟨r, _, hr⟩ := hd
    rcases hla : r.latitude with _ | la <;>
      rcases hlo : r.longitude with _ | lo <;>
      simp [normalize_destination, hla, hlo] at hr
    obtain ⟨⟨h1, h2, h3⟩, h4⟩ := hr
    subst h4
    exact ⟨h1, h2, h3⟩
  · intro r hcase
    rcases hla : r.latitude with _ | la <;>
      rcases hlo : r.longitude with _ | lo <;>
      simp [normalize_destination, hla, hlo]
    rcases hcase with h | h | h | h
    · rw [hla] at h
      intro _ h2
      exact absurd (Option.some.inj h) h2
    · rw [hlo] at h
      intro _ _
      exact Option.some.inj h
    · rw [hla] at h
      cases h
    · rw [hlo] at h
      cases h

/-- Witness for C10 at a row with latitude exactly 0 (inside the bounding
box) and a row in the processed output. -/
theorem C10_witness :
    normalize_destination ⟨"x".toList, some 0, some 100⟩ = none :=
  C10_truthiness_filter.2.1 ⟨"x".toList, some 0, some 100⟩ (Or.inl rfl)

end Palapa
